import Mathlib

/-!
Verification of the elm-pages beta build pipeline (generator/src/cli.js and
the directory-copy helper module) against its natural-language specification.

JavaScript strings are embedded as `List Char` (named `JStr`), so that every
string operation of the source is an executable Lean function and byte-exact
claims about file contents and paths can be stated and decided.
-/

namespace ElmPages

/-- A JavaScript string, embedded as its list of characters. -/
abbrev JStr := List Char

/-- Concatenation of a list of strings (used to state repeated-"../" facts). -/
def concatAll : List JStr → JStr
  | [] => []
  | s :: rest => s ++ concatAll rest

/-! ## Route normalization (cli.js lines 100-102 and line 148) -/

/-- cli.js line 101: `route.replace(/(^\/|\/$)/, "")`.  The regex is not
global, so only the first match is replaced: a leading slash when present,
otherwise a trailing slash when present. -/
def cleanRoute (route : JStr) : JStr :=
  match route with
  | [] => []
  | c :: rest =>
      if c = '/' then rest
      else if (c :: rest).getLast? = some '/' then (c :: rest).dropLast
      else c :: rest

/-- The characters of the literal `"index"`. -/
def INDEX : JStr := "index".data

/-- cli.js line 148: `args.route.replace(/index$/, "")` — the normalization
applied to a route before deriving the output paths.  It removes one
trailing occurrence of the literal text `index` (whether or not it is a
whole path segment) and touches nothing else. -/
def stripIndexSuffix (route : JStr) : JStr :=
  if INDEX <:+ route then route.take (route.length - INDEX.length) else route

/-- cli.js line 151: the html output path `dist/${normalizedRoute}/index.html`. -/
def htmlPath (route : JStr) : JStr :=
  "dist/".data ++ stripIndexSuffix route ++ "/index.html".data

/-- cli.js lines 152-153: the sidecar path `dist/${normalizedRoute}/content.json`. -/
def jsonPath (route : JStr) : JStr :=
  "dist/".data ++ stripIndexSuffix route ++ "/content.json".data

/-- POSIX path resolution of repeated separators: consecutive `/` characters
denote the same directory boundary as a single one, so resolved paths are
compared after collapsing runs of slashes. -/
def collapseSlashes : JStr → JStr
  | [] => []
  | '/' :: '/' :: rest => collapseSlashes ('/' :: rest)
  | c :: rest => c :: collapseSlashes rest

/-! ## Base href computation (cli.js lines 123-139) -/

/-- JavaScript `String.prototype.split("/")` on the character list. -/
def splitSlash : JStr → List JStr
  | [] => [[]]
  | c :: rest =>
      if c = '/' then [] :: splitSlash rest
      else
        match splitSlash rest with
        | [] => [[c]]
        | g :: gs => (c :: g) :: gs

/-- JavaScript `Array.prototype.join("/")`. -/
def joinSlash : List JStr → JStr
  | [] => []
  | [s] => s
  | s :: rest => s ++ '/' :: joinSlash rest

/-- cli.js line 130: `.replace(/\.$/, "./")` — when the string ends in a dot,
that final dot is replaced by `./`. -/
def replaceDotEnd (s : JStr) : JStr :=
  if s.getLast? = some '.' then s.dropLast ++ "./".data else s

/-- cli.js lines 123-131 (`pathToRoot`): the empty string maps to itself;
otherwise every `split("/")` component is mapped to `..`, the pieces are
joined with `/`, and a final lone dot becomes `./`. -/
def pathToRoot (s : JStr) : JStr :=
  if s = [] then []
  else replaceDotEnd (joinSlash ((splitSlash s).map (fun _ => "..".data)))

/-- cli.js lines 136-139 (`baseRoute`): `"./"` when the cleaned route is
empty, otherwise `pathToRoot` applied to the original (uncleaned) route. -/
def baseRoute (route : JStr) : JStr :=
  if cleanRoute route = [] then "./".data else pathToRoot route

/-! ## Definitions written from the claims' own words, for comparison -/

/-- Modelled from the spec: the path segments of a route, i.e. the nonempty
components of its `/`-separated form (claim C4 speaks of one `..` per path
segment of the route). -/
def routeSegments (r : JStr) : List JStr :=
  (splitSlash r).filter (fun s => !s.isEmpty)

/-- Modelled from the spec: claim C4's description of the base href — `"./"`
for a route with no segments, otherwise `..` repeated once per path segment,
joined into a relative path ending in `/` (equivalently `../` repeated). -/
def claimedBaseHref (r : JStr) : JStr :=
  if routeSegments r = [] then "./".data
  else concatAll (List.replicate (routeSegments r).length "../".data)

/-- `../` repeated `n` times: the shape the code actually produces. -/
def flattenDots (n : Nat) : JStr := concatAll (List.replicate n "../".data)

/-- The amended description of the base href: `"./"` when `cleanRoute`
yields the empty string, otherwise one `../` per `split("/")` component of
the raw route (empty components from leading, trailing or doubled slashes
count as segments). -/
def baseHrefAmendedSpec (r : JStr) : JStr :=
  if cleanRoute r = [] then "./".data else flattenDots (splitSlash r).length

/-- Modelled from the spec: removal of all leading and trailing slashes
(part of claim C3's description of route normalization). -/
def stripSlashes (r : JStr) : JStr :=
  ((r.dropWhile (fun c => c == '/')).reverse.dropWhile (fun c => c == '/')).reverse

/-- Modelled from the spec: claim C3's described normalization — strip at
most one trailing literal `index` path segment and all leading and trailing
slashes. -/
def claimedNormalize (r : JStr) : JStr :=
  let s := stripSlashes r
  if s = INDEX then []
  else if ('/' :: INDEX) <:+ s then stripSlashes (s.take (s.length - 6))
  else s

/-! ## JSON values and `JSON.stringify` -/

mutual
/-- A JSON value, as produced and consumed by the renderer protocol. -/
inductive Json where
  | null
  | bool (b : Bool)
  | num (n : Int)
  | str (s : JStr)
  | arr (elems : JsonList)
  | obj (members : JsonObj)
/-- A list of JSON array elements. -/
inductive JsonList where
  | nil
  | cons (head : Json) (tail : JsonList)
/-- The ordered members of a JSON object (`JSON.stringify` serializes
fields in insertion order). -/
inductive JsonObj where
  | nil
  | cons (key : JStr) (value : Json) (rest : JsonObj)
end

/-- Hexadecimal digit character, for control-character escapes. -/
def hexDigit (n : Nat) : Char :=
  if n < 10 then Char.ofNat (48 + n) else Char.ofNat (87 + n)

/-- The escape `JSON.stringify` applies to one character of a string. -/
def escapeJChar (c : Char) : JStr :=
  if c = '"' then ['\\', '"']
  else if c = '\\' then ['\\', '\\']
  else if c = '\x08' then ['\\', 'b']
  else if c = '\x0c' then ['\\', 'f']
  else if c = '\n' then ['\\', 'n']
  else if c = '\r' then ['\\', 'r']
  else if c = '\t' then ['\\', 't']
  else if c.toNat < 32 then
    ['\\', 'u', '0', '0', hexDigit (c.toNat / 16), hexDigit (c.toNat % 16)]
  else [c]

/-- `JSON.stringify` of a string value: quoted, characters escaped. -/
def quoteJString (s : JStr) : JStr :=
  '"' :: concatAll (s.map escapeJChar) ++ ['"']

/-- Decimal rendering of an integer, as `JSON.stringify` prints it. -/
def intToJStr : Int → JStr
  | .ofNat m => Nat.toDigits 10 m
  | .negSucc m => '-' :: Nat.toDigits 10 (m + 1)

mutual
/-- `JSON.stringify` (no replacer, no spacing), over the embedded values. -/
def jsonStringify : Json → JStr
  | .null => "null".data
  | .bool true => "true".data
  | .bool false => "false".data
  | .num n => intToJStr n
  | .str s => quoteJString s
  | .arr es => '[' :: (jsonElems es ++ [']'])
  | .obj ms => '\x7b' :: (jsonMembers ms ++ ['\x7d'])
/-- Comma-separated serialization of array elements. -/
def jsonElems : JsonList → JStr
  | .nil => []
  | .cons e .nil => jsonStringify e
  | .cons e rest => jsonStringify e ++ ',' :: jsonElems rest
/-- Comma-separated serialization of object members, insertion order. -/
def jsonMembers : JsonObj → JStr
  | .nil => []
  | .cons k v .nil => quoteJString k ++ ':' :: jsonStringify v
  | .cons k v rest => quoteJString k ++ ':' :: jsonStringify v ++ ',' :: jsonMembers rest
end

/-! ## The renderer protocol and the message dispatcher (cli.js lines 47-95, 141-156) -/

/-- One rendered-page record, the `args[0]` of a `PageProgress` message
(cli.js typedef lines 250-263).  The record carries both a `body` and an
`html` field; they are distinct inputs used by different outputs. -/
structure PageArg where
  body : JStr
  head : JsonList
  errors : JsonList
  contentJson : Json
  html : JStr
  route : JStr
  title : JStr

/-- A message of the renderer's output vocabulary, as dispatched by the
`toJsPort` subscription (cli.js lines 63-81).  The vocabulary is closed:
any other tag is a fatal protocol violation (`throw "Unknown port tag."`),
outside this type. -/
inductive FromElm where
  | log (value : JStr)
  | initialData (manifest : Json) (filesToGenerate : List (JStr × JStr))
  | pageProgress (args : PageArg)
  | errors (details : JStr)

/-- What a dispatcher-triggered file write contains.  `content.json` and
generated files carry byte-exact content; the html document and the
manifest are functions of the page record / manifest config whose remaining
inputs (template version string, seo renderer, manifest generator) live in
modules outside this repository's sources, so they are recorded
symbolically as the record they are rendered from. -/
inductive FileContent where
  | raw (content : JStr)
  | htmlDoc (args : PageArg)
  | manifestFile (manifest : Json)

/-- Node's `path.dirname`, for the paths `dist/<generated path>` the
dispatcher passes to it (no trailing or duplicated slashes). -/
def dirname (p : JStr) : JStr :=
  match (splitSlash p).dropLast with
  | [] => ".".data
  | parts => joinSlash parts

/-- cli.js lines 144-147 and 152-155: the exact bytes written to
`dist/<normalizedRoute>/content.json`: the stringified object whose fields
are `body`, holding `args.body`, then `staticData`, holding
`args.contentJson`. -/
def contentJsonString (args : PageArg) : JStr :=
  jsonStringify (.obj (.cons "body".data (.str args.body)
    (.cons "staticData".data args.contentJson .nil)))

/-- Modelled from the spec: claim C2's description of the sidecar content —
a `body` field holding the page's `html` and a `staticData` field holding
its `contentJson`. -/
def claimedContentJson (args : PageArg) : JStr :=
  jsonStringify (.obj (.cons "body".data (.str args.html)
    (.cons "staticData".data args.contentJson .nil)))

/-- The observable state accumulated while the dispatcher runs: the
`foundErrors` flag (cli.js line 17), the file writes, the directories
created, and the two console streams, each in program order. -/
structure DispatchState where
  foundErrors : Bool
  files : List (JStr × FileContent)
  dirsMade : List JStr
  logs : List JStr
  errOut : List JStr

/-- Process start: `let foundErrors = false` and no I/O performed yet. -/
def initState : DispatchState :=
  { foundErrors := false, files := [], dirsMade := [], logs := [], errOut := [] }

/-- One activation of the `toJsPort` subscription handler (cli.js lines
63-81), together with the handlers it calls: `generateFiles` (lines 88-95)
and `outputString` (lines 141-156). -/
def step (s : DispatchState) : FromElm → DispatchState
  | .log v => { s with logs := s.logs ++ [v] }
  | .initialData m files =>
      { s with
        files := (s.files ++ [("dist/manifest.json".data, FileContent.manifestFile m)])
          ++ files.map (fun f => ("dist/".data ++ f.1, FileContent.raw f.2)),
        dirsMade := s.dirsMade ++ files.map (fun f => dirname ("dist/".data ++ f.1)),
        logs := s.logs ++ files.map (fun f => "Generating file /".data ++ f.1) }
  | .pageProgress a =>
      { s with
        logs := s.logs ++ ["Pre-rendered /".data ++ a.route],
        dirsMade := s.dirsMade ++ ["./dist/".data ++ stripIndexSuffix a.route],
        files := s.files ++ [(htmlPath a.route, FileContent.htmlDoc a),
          (jsonPath a.route, FileContent.raw (contentJsonString a))] }
  | .errors d =>
      { s with errOut := s.errOut ++ [d], foundErrors := true }

/-- Processing a whole message stream from process start. -/
def runAll (ms : List FromElm) : DispatchState :=
  ms.foldl step initState

/-- cli.js lines 48-54: the `beforeExit` hook reads `foundErrors` once when
the channel closes and fixes the process exit code. -/
def exitCodeAtClose (s : DispatchState) : Nat :=
  if s.foundErrors then 1 else 0

/-! ## Subprocess runner (cli.js lines 166-194) -/

/-- What the `close` handler of the spawned compiler does: `resolve()`, or
`reject()` immediately followed by `process.exit(1)`. -/
inductive SpawnOutcome where
  | resolved
  | rejectedThenExit (exitCode : Nat)
deriving DecidableEq

/-- cli.js lines 184-192: on subprocess close, success iff the exit code is
`0` (a `null` code compares unequal) and the expected output file exists;
otherwise the promise is rejected and the process exits with code 1 at
once. -/
def closeHandler (code : Option Int) (fileOutputExists : Bool) : SpawnOutcome :=
  if code = some 0 ∧ fileOutputExists = true then .resolved
  else .rejectedThenExit 1

/-! ## Module transform (cli.js lines 107-118) -/

/-- JavaScript `String.prototype.replace` with a plain-string pattern:
only the first occurrence is replaced; absent an occurrence the string is
returned unchanged. -/
def replaceFirst (pat repl : JStr) : JStr → JStr
  | [] => []
  | c :: rest =>
      if pat <+: (c :: rest) then repl ++ (c :: rest).drop pat.length
      else c :: replaceFirst pat repl rest

/-- The closing-invocation marker of the compiled artifact. -/
def esmMarker : JStr := "\x7d(this));".data

/-- The replacement invocation against the local scope object. -/
def esmReplacement : JStr := "\x7d(scope));".data

/-- cli.js lines 110-115 (`elmToEsm`): the exact bytes written back for an
artifact read as `elmEs3`. -/
def elmToEsm (elmEs3 : JStr) : JStr :=
  "\n".data ++ "const scope = \x7b\x7d;\n".data
    ++ replaceFirst esmMarker esmReplacement elmEs3
    ++ "export const \x7b Elm \x7d = scope;\n".data ++ "\n".data

/-- Modelled from the spec: claim C6's description of the transform output —
byte-identical to the input apart from the single marker substitution and
one appended export statement, with no other bytes added or changed. -/
def claimedEsmOutput (elmEs3 : JStr) : JStr :=
  replaceFirst esmMarker esmReplacement elmEs3
    ++ "export const \x7b Elm \x7d = scope;\n".data

/-! ## Directory copier (dir-helpers module: `copyDir` / `copyDirHelp`)

Paths are lists of file names; the filesystem is a map from paths to nodes.
`fs.mkdir` (without the recursive option) fails when the path already
exists or its parent is not an existing directory; `fs.copyFile` fails when
the destination's parent is not an existing directory, and overwrites an
existing destination file.  A failing operation rejects its promise, so the
copy does not produce the mirrored tree; this is modelled by `Option`. -/

/-- One filesystem node. -/
inductive Node where
  | dirNode
  | fileNode (content : JStr)

/-- A filesystem: which node, if any, lives at each path. -/
def FS : Type := List JStr → Option Node

/-- Setting the node at one path. -/
def FS.update (fs : FS) (p : List JStr) (n : Node) : FS :=
  fun q => if q = p then some n else fs q

/-- `fs.mkdir(p)` without the recursive option. -/
def mkdirAt (fs : FS) (p : List JStr) : Option FS :=
  match fs p with
  | some _ => none
  | none =>
      if p = [] then none
      else
        match fs p.dropLast with
        | some .dirNode => some (fs.update p .dirNode)
        | _ => none

/-- `fs.copyFile(src, p)` with the source file's content given. -/
def copyFileTo (fs : FS) (p : List JStr) (content : JStr) : Option FS :=
  match fs p.dropLast with
  | some .dirNode =>
      match fs p with
      | some .dirNode => none
      | _ => some (fs.update p (.fileNode content))
  | _ => none

mutual
/-- The source subtree being copied: a file's content, or a directory's
children as the ordered `readdir` listing of (name, entry) pairs. -/
inductive Entry where
  | file (content : JStr)
  | dir (children : EntryList)
/-- An ordered `readdir` listing. -/
inductive EntryList where
  | nil
  | cons (name : JStr) (entry : Entry) (rest : EntryList)
end

/-- Whether a listing contains a child of the given name. -/
def hasName : EntryList → JStr → Bool
  | .nil, _ => false
  | .cons m _ rest, n => (m == n) || hasName rest n

mutual
/-- A well-formed source tree: sibling names are distinct at every level
(as `readdir` guarantees for a real directory). -/
def wfEntry : Entry → Bool
  | .file _ => true
  | .dir cs => wfList cs
/-- Well-formedness of a listing. -/
def wfList : EntryList → Bool
  | .nil => true
  | .cons n e rest => wfEntry e && wfList rest && !hasName rest n
end

mutual
/-- The node found at a relative path inside a source tree. -/
def lookupTree : Entry → List JStr → Option Node
  | .file c, [] => some (.fileNode c)
  | .file _, _ :: _ => none
  | .dir _, [] => some .dirNode
  | .dir cs, n :: rest => lookupChild cs n rest
/-- Lookup of a named child followed by a relative path. -/
def lookupChild : EntryList → JStr → List JStr → Option Node
  | .nil, _, _ => none
  | .cons m e rest, n, q => if m = n then lookupTree e q else lookupChild rest n q
end

mutual
/-- dir-helpers lines 30-46 (`copyDirHelp`): a directory source makes the
destination directory and then copies each child under it; a file source is
copied byte-for-byte to the destination path. -/
def copyDirHelp : Entry → List JStr → FS → Option FS
  | .file c, dest, fs => copyFileTo fs dest c
  | .dir cs, dest, fs => (mkdirAt fs dest).bind (copyChildren cs dest)
/-- The per-child loop of `copyDirHelp` (and of `copyDir`), in listing
order. -/
def copyChildren : EntryList → List JStr → FS → Option FS
  | .nil, _, fs => some fs
  | .cons n e rest, dest, fs =>
      (copyDirHelp e (dest ++ [n]) fs).bind (copyChildren rest dest)
end

/-- dir-helpers lines 16-24 (`copyDir`, the nested copy mode): every child
of the source directory is copied to the same name under `destDir`.  Note
`destDir` itself is never created here. -/
def copyDir (srcChildren : EntryList) (destDir : List JStr) (fs : FS) : Option FS :=
  copyChildren srcChildren destDir fs

/-- A filesystem holding only a root directory: the destination path of the
copy is fully absent. -/
def fsRootOnly : FS :=
  fun q => if q = [] then some .dirNode else none

/-- A filesystem holding the root and an empty directory `d`. -/
def fsEmptyDirD : FS :=
  fun q => if q = [] then some .dirNode
    else if q = ["d".data] then some .dirNode else none

/-- A one-file source listing: a single child file `f` with content `x`. -/
def srcOneFile : EntryList := .cons "f".data (.file "x".data) .nil

/-! ## Concrete pages and values used by witnesses and counterexamples -/

/-- The JSON object `\x7b"a":1\x7d`. -/
def jsonA : Json := .obj (.cons "a".data (.num 1) .nil)

/-- A page whose `body` and `html` agree, as in claim C2's example. -/
def pageHi : PageArg :=
  { body := "<p>hi</p>".data, head := .nil, errors := .nil,
    contentJson := jsonA, html := "<p>hi</p>".data, route := "".data,
    title := "hi".data }

/-- A page whose `body` and `html` differ, separating the two fields. -/
def pageMismatch : PageArg :=
  { body := "X".data, head := .nil, errors := .nil,
    contentJson := jsonA, html := "<p>hi</p>".data, route := "".data,
    title := "hi".data }

/-- A page record with the given route and all other inputs trivial. -/
def pageWithRoute (r : JStr) : PageArg :=
  { body := [], head := .nil, errors := .nil, contentJson := .null,
    html := [], route := r, title := [] }

/-- The root-route page of claim C7's scenario. -/
def pageRoot : PageArg := pageWithRoute "".data

/-- The `blog/post-1` page of claim C7's scenario. -/
def pageBlog : PageArg := pageWithRoute "blog/post-1".data

/-- The `blog/post-1/index` page of claim C7's scenario. -/
def pageBlogIndex : PageArg := pageWithRoute "blog/post-1/index".data

/-- The resolved (slash-collapsed) target path of a write when it is an
html document write. -/
def htmlWriteResolved (w : JStr × FileContent) : Option JStr :=
  match w.2 with
  | .htmlDoc _ => some (collapseSlashes w.1)
  | _ => none

/-! # Theorems -/

/-! ## Helper lemmas about the embedded string functions -/

/-- When the route does not end in `index`, the output-path normalization
leaves it unchanged. -/
theorem stripIndexSuffix_of_not {s : JStr} (h : ¬ INDEX <:+ s) :
    stripIndexSuffix s = s := by
  unfold stripIndexSuffix
  rw [if_neg h]

/-- When the route ends in `index`, the normalization removes exactly that
occurrence. -/
theorem stripIndexSuffix_of_suffix {s : JStr} (h : INDEX <:+ s) :
    s = stripIndexSuffix s ++ INDEX := by
  obtain ⟨t, ht⟩ := h
  subst ht
  have h5 : (t ++ INDEX).length - INDEX.length = t.length := by
    simp [List.length_append]
  unfold stripIndexSuffix
  rw [if_pos (List.suffix_append t INDEX), h5]
  rw [show List.take t.length (t ++ INDEX) = t from List.take_left t INDEX]

/-- `splitSlash` never yields the empty list (as `String.split` in
JavaScript always yields at least one component). -/
theorem splitSlash_ne_nil (s : JStr) : splitSlash s ≠ [] := by
  match s with
  | [] => simp [splitSlash]
  | c :: rest =>
      simp only [splitSlash]
      split
      · simp
      · split <;> simp

/-- `concatAll` distributes over list concatenation. -/
theorem concatAll_append (l₁ l₂ : List JStr) :
    concatAll (l₁ ++ l₂) = concatAll l₁ ++ concatAll l₂ := by
  induction l₁ with
  | nil => rfl
  | cons s rest ih => simp [concatAll, ih]

/-- `../` repeated `n+1` times, with the last copy split off. -/
theorem flattenDots_succ (n : Nat) :
    flattenDots (n + 1) = flattenDots n ++ "../".data := by
  unfold flattenDots
  rw [List.replicate_succ', concatAll_append]
  simp [concatAll]

/-- `../` repeated a positive number of times is a nonempty string. -/
theorem flattenDots_ne_nil (n : Nat) (h : n ≠ 0) : flattenDots n ≠ [] := by
  match n, h with
  | m + 1, _ =>
      simp [flattenDots, List.replicate_succ, concatAll]

/-- Joining one `..` per component with `/` yields `../` repeated once per
component, short of its final slash. -/
theorem joinSlash_dots (l : List JStr) (h : l ≠ []) :
    joinSlash (l.map fun _ => "..".data) = (flattenDots l.length).dropLast := by
  induction l with
  | nil => exact absurd rfl h
  | cons x t ih =>
    cases t with
    | nil =>
        simp only [List.map_cons, List.map_nil, List.length_singleton]
        decide
    | cons y t' =>
      have hsucc : flattenDots ((y :: t').length + 1)
          = "../".data ++ flattenDots (y :: t').length := by
        simp [flattenDots, List.replicate_succ, concatAll]
      have hne : flattenDots (y :: t').length ≠ [] :=
        flattenDots_ne_nil _ (by simp)
      calc joinSlash ((x :: y :: t').map fun _ => "..".data)
          = "..".data ++ '/' :: joinSlash ((y :: t').map fun _ => "..".data) := by
            simp [joinSlash]
        _ = "../".data ++ joinSlash ((y :: t').map fun _ => "..".data) := rfl
        _ = "../".data ++ (flattenDots (y :: t').length).dropLast := by
            rw [ih (by simp)]
        _ = ("../".data ++ flattenDots (y :: t').length).dropLast := by
            rw [List.dropLast_append_of_ne_nil _ hne]
        _ = (flattenDots ((x :: y :: t').length)).dropLast := by
            rw [show (x :: y :: t').length = (y :: t').length + 1 from rfl, hsucc]

/-- Patching the final dot of the slash-less join recovers the full
`../`-repetition. -/
theorem replaceDotEnd_dots (n : Nat) :
    replaceDotEnd ((flattenDots (n + 1)).dropLast) = flattenDots (n + 1) := by
  have hdrop : (flattenDots (n + 1)).dropLast = (flattenDots n ++ ['.']) ++ ['.'] := by
    rw [flattenDots_succ]
    rw [show "../".data = ['.', '.', '/'] from rfl]
    rw [List.dropLast_append_of_ne_nil _ (by simp)]
    simp
  rw [hdrop]
  unfold replaceDotEnd
  rw [if_pos (List.getLast?_concat _)]
  rw [List.dropLast_concat]
  rw [flattenDots_succ]
  simp

/-- Joining one `..` per component and patching the final dot yields
exactly one `../` per component. -/
theorem joinDots_eq (l : List JStr) (h : l ≠ []) :
    replaceDotEnd (joinSlash (l.map fun _ => "..".data)) = flattenDots l.length := by
  match l, h with
  | x :: t, _ =>
      rw [joinSlash_dots (x :: t) (by simp)]
      exact replaceDotEnd_dots t.length

/-! ## Claim C3 — route normalization before output paths -/

/-- Claim C3 is false as stated: the normalization used for output paths
(`route.replace(/index$/, "")`, cli.js line 148) removes no slashes — at
`"/a"` it differs from the claimed strip-slashes-and-index-segment
normalization — it is not idempotent — at `"indexindex"` a second
application removes more — and it removes a trailing `index` that is not a
whole segment — at `"myindex"`. -/
theorem c3_normalize_counterexample :
    stripIndexSuffix "/a".data ≠ claimedNormalize "/a".data
    ∧ stripIndexSuffix (stripIndexSuffix "indexindex".data)
        ≠ stripIndexSuffix "indexindex".data
    ∧ stripIndexSuffix "myindex".data = "my".data := by
  decide

/-- Claim C3, amended: the normalization applied before deriving output
paths removes exactly one trailing occurrence of the literal text `index`
when the route ends with it (whether or not it is a whole segment), removes
no slashes and nothing else, and is idempotent on every route whose
normalized form does not itself end in `index`. -/
theorem c3_normalize_amended (r : JStr) :
    (¬ INDEX <:+ r → stripIndexSuffix r = r)
    ∧ (INDEX <:+ r → r = stripIndexSuffix r ++ INDEX)
    ∧ (¬ INDEX <:+ stripIndexSuffix r →
        stripIndexSuffix (stripIndexSuffix r) = stripIndexSuffix r) := by
  refine ⟨fun h => stripIndexSuffix_of_not h, fun h => stripIndexSuffix_of_suffix h,
    fun h => stripIndexSuffix_of_not h⟩

/-- Witness for `c3_normalize_amended` at the route `"a/index"`. -/
theorem c3_normalize_amended_witness :
    "a/index".data = stripIndexSuffix "a/index".data ++ INDEX
    ∧ stripIndexSuffix (stripIndexSuffix "a/index".data)
        = stripIndexSuffix "a/index".data :=
  ⟨(c3_normalize_amended "a/index".data).2.1 (by decide),
   (c3_normalize_amended "a/index".data).2.2 (by decide)⟩

/-! ## Claim C4 — base href of the generated document -/

/-- Claim C4 is false as stated: the route `"a/"` has one path segment, so
the claimed base href is `"../"`, but the code passes the raw route to
`pathToRoot`, whose `split("/")` also counts the empty component after the
trailing slash, producing `"../../"`. -/
theorem c4_base_href_counterexample :
    baseRoute "a/".data = "../../".data
    ∧ claimedBaseHref "a/".data = "../".data
    ∧ baseRoute "a/".data ≠ claimedBaseHref "a/".data := by
  decide

/-- Claim C4, amended: the computed base href is `"./"` exactly when the
route cleans to the empty string; otherwise it is `"../"` repeated once per
`split("/")` component of the raw route, where empty components arising
from leading, trailing or doubled slashes also count; in particular
`baseHref("") = "./"` and `baseHref("a/b") = "../../"`. -/
theorem c4_base_href_amended :
    (∀ r : JStr, baseRoute r = baseHrefAmendedSpec r)
    ∧ baseRoute "".data = "./".data
    ∧ baseRoute "a/b".data = "../../".data := by
  refine ⟨fun r => ?_, by decide, by decide⟩
  unfold baseRoute baseHrefAmendedSpec
  by_cases h : cleanRoute r = []
  · rw [if_pos h, if_pos h]
  · rw [if_neg h, if_neg h]
    have hr : r ≠ [] := by
      intro he
      subst he
      exact h rfl
    unfold pathToRoot
    rw [if_neg hr]
    exact joinDots_eq (splitSlash r) (splitSlash_ne_nil r)

/-! ## Claim C5 — subprocess close handler -/

/-- Claim C5: a compiler subprocess invocation succeeds (its promise is
resolved) iff the exit code is zero and the expected output file exists
after exit; in every other case the handler rejects and the process exits
immediately with code 1 — there is no other outcome and no retry
(cli.js lines 184-192). -/
theorem c5_subprocess_success_iff (code : Option Int) (fileOutputExists : Bool) :
    (closeHandler code fileOutputExists = .resolved
      ↔ (code = some 0 ∧ fileOutputExists = true))
    ∧ (¬ (code = some 0 ∧ fileOutputExists = true) →
        closeHandler code fileOutputExists = .rejectedThenExit 1) := by
  unfold closeHandler
  refine ⟨⟨fun h => ?_, fun hc => by rw [if_pos hc]⟩, fun hc => by rw [if_neg hc]⟩
  by_contra hc
  rw [if_neg hc] at h
  exact SpawnOutcome.noConfusion h

/-- Witness for `c5_subprocess_success_iff`: exit code 1 rejects and exits,
exit code 0 with the output file present resolves. -/
theorem c5_subprocess_success_iff_witness :
    closeHandler (some 1) true = .rejectedThenExit 1
    ∧ closeHandler (some 0) true = .resolved :=
  ⟨(c5_subprocess_success_iff (some 1) true).2 (by decide),
   (c5_subprocess_success_iff (some 0) true).1.2 (by decide)⟩

/-! ## Claim C6 — module transform -/

/-- Claim C6 is false as stated: beyond the marker substitution and the
appended export statement, `elmToEsm` also prepends a blank line and the
local scope declaration `const scope = \x7b\x7d;` and appends a final
newline; already on the artifact consisting of just the marker the output
differs from the claimed one. -/
theorem c6_esm_counterexample :
    elmToEsm esmMarker ≠ claimedEsmOutput esmMarker := by
  decide

/-- `String.replace` with a plain pattern substitutes exactly the first
occurrence: on input split as `a ++ pat ++ b` where no occurrence starts
inside `a`, the output is `a ++ repl ++ b`. -/
theorem replaceFirst_split (pat repl a b : JStr) (hp : pat ≠ [])
    (h : ∀ i, i < a.length → ¬ pat <+: ((a ++ (pat ++ b)).drop i)) :
    replaceFirst pat repl (a ++ (pat ++ b)) = a ++ (repl ++ b) := by
  induction a with
  | nil =>
    match pat, hp with
    | p :: ps, _ =>
      show replaceFirst (p :: ps) repl ((p :: ps) ++ b) = repl ++ b
      rw [List.cons_append]
      unfold replaceFirst
      rw [if_pos ⟨b, by rw [List.cons_append]⟩]
      have hdrop : List.drop (p :: ps).length (p :: (ps ++ b)) = b := by
        rw [← List.cons_append, List.drop_left]
      rw [hdrop]
  | cons x a' ih =>
    have h0 : ¬ pat <+: (x :: a') ++ (pat ++ b) := by
      have h' := h 0 (by simp)
      simpa using h'
    show replaceFirst pat repl ((x :: a') ++ (pat ++ b)) = (x :: a') ++ (repl ++ b)
    rw [List.cons_append]
    unfold replaceFirst
    rw [if_neg (by rw [← List.cons_append]; exact h0)]
    rw [ih ?hrec, List.cons_append]
    case hrec =>
      intro i hi
      have h' := h (i + 1) (by simpa using Nat.succ_lt_succ hi)
      rw [List.cons_append, List.drop_succ_cons] at h'
      exact h'

/-- Claim C6, amended: for an artifact containing the marker (written as
`a ++ marker ++ b` with the first occurrence at the split point), the
transform's output is byte-identical to the input apart from that single
substitution, a prepended blank line and local scope declaration, and an
appended export statement and final newline. -/
theorem c6_esm_amended (a b : JStr)
    (h : ∀ i, i < a.length → ¬ esmMarker <+: ((a ++ (esmMarker ++ b)).drop i)) :
    elmToEsm (a ++ (esmMarker ++ b))
      = "\n".data ++ "const scope = \x7b\x7d;\n".data
        ++ (a ++ (esmReplacement ++ b))
        ++ "export const \x7b Elm \x7d = scope;\n".data ++ "\n".data := by
  unfold elmToEsm
  rw [replaceFirst_split esmMarker esmReplacement a b (by decide) h]

/-- Witness for `c6_esm_amended` on the artifact `"x" ++ marker ++ "y"`. -/
theorem c6_esm_amended_witness :
    elmToEsm ("x".data ++ (esmMarker ++ "y".data))
      = "\n".data ++ "const scope = \x7b\x7d;\n".data
        ++ ("x".data ++ (esmReplacement ++ "y".data))
        ++ "export const \x7b Elm \x7d = scope;\n".data ++ "\n".data :=
  c6_esm_amended "x".data "y".data (by decide)

/-! ## Claim C7 — html output paths and the index collision -/

/-- Claim C7: dispatching `PageProgress` messages for the routes `""`,
`"blog/post-1"` and `"blog/post-1/index"` writes their html documents to
exactly the resolved paths `dist/index.html`, `dist/blog/post-1/index.html`
and `dist/blog/post-1/index.html`: the third write resolves to the same
path as the second, so the collision occurs rather than being avoided. -/
theorem c7_index_collision :
    ((runAll [FromElm.pageProgress pageRoot, FromElm.pageProgress pageBlog,
        FromElm.pageProgress pageBlogIndex]).files.filterMap htmlWriteResolved)
      = ["dist/index.html".data, "dist/blog/post-1/index.html".data,
         "dist/blog/post-1/index.html".data]
    ∧ collapseSlashes (htmlPath pageBlogIndex.route)
        = collapseSlashes (htmlPath pageBlog.route) := by
  decide

/-! ## Claim C8 — Log messages perform no file I/O -/

/-- Claim C8: handling a `Log` protocol message appends its value to the
operator-visible log stream and performs no file I/O — no file is written
and no directory is created — and it touches neither the error flag nor
the error stream (cli.js lines 64-65). -/
theorem c8_log_no_file_io (s : DispatchState) (v : JStr) :
    (step s (.log v)).files = s.files
    ∧ (step s (.log v)).dirsMade = s.dirsMade
    ∧ (step s (.log v)).logs = s.logs ++ [v]
    ∧ (step s (.log v)).foundErrors = s.foundErrors
    ∧ (step s (.log v)).errOut = s.errOut :=
  ⟨rfl, rfl, rfl, rfl, rfl⟩

/-! ## Claim C2 — the exact bytes of content.json -/

/-- Claim C2 is false as stated: the `body` field of `content.json` holds
the page record's `body` field, not its `html` field (cli.js line 145 uses
`args.body`); on a page whose `html` is `"<p>hi</p>"` but whose `body` is
`"X"`, the written bytes hold `"X"` and differ from the claimed ones. -/
theorem c2_content_json_counterexample :
    contentJsonString pageMismatch
      = "\x7b\"body\":\"X\",\"staticData\":\x7b\"a\":1\x7d\x7d".data
    ∧ claimedContentJson pageMismatch
      = "\x7b\"body\":\"<p>hi</p>\",\"staticData\":\x7b\"a\":1\x7d\x7d".data
    ∧ contentJsonString pageMismatch ≠ claimedContentJson pageMismatch := by
  decide

/-- Claim C2, amended: for every rendered page, `content.json` holds
exactly the JSON object with the two fields `body` — holding the page's
`body` field — and `staticData` — holding its `contentJson` — in that
order and with no other fields; in particular, for a page whose `body` is
`"<p>hi</p>"` and whose `contentJson` is `\x7b"a":1\x7d`, the file content
equals `\x7b"body":"<p>hi</p>","staticData":\x7b"a":1\x7d\x7d` exactly. -/
theorem c2_content_json_amended :
    (∀ args : PageArg, contentJsonString args
      = "\x7b\"body\":".data ++ jsonStringify (.str args.body)
        ++ (",\"staticData\":".data ++ (jsonStringify args.contentJson ++ "\x7d".data)))
    ∧ contentJsonString pageHi
      = "\x7b\"body\":\"<p>hi</p>\",\"staticData\":\x7b\"a\":1\x7d\x7d".data := by
  refine ⟨fun args => ?_, by decide⟩
  show jsonStringify (.obj (.cons "body".data (.str args.body)
    (.cons "staticData".data args.contentJson .nil))) = _
  simp only [jsonStringify, jsonMembers]
  rw [show quoteJString "body".data = "\"body\"".data from by decide]
  rw [show quoteJString "staticData".data = "\"staticData\"".data from by decide]
  simp [List.append_assoc]

/-! ## Dispatcher run lemmas (for claims C1 and C10) -/

/-- No dispatcher branch removes a recorded file write. -/
theorem step_files_sub (s : DispatchState) (m : FromElm) :
    s.files ⊆ (step s m).files := by
  cases m with
  | log v => exact fun x hx => hx
  | initialData mf fl =>
      exact fun x hx => List.mem_append_left _ (List.mem_append_left _ hx)
  | pageProgress a => exact fun x hx => List.mem_append_left _ hx
  | errors d => exact fun x hx => hx

/-- File writes persist across the rest of the message stream. -/
theorem foldl_files_sub (ms : List FromElm) (s : DispatchState) :
    s.files ⊆ (List.foldl step s ms).files := by
  induction ms generalizing s with
  | nil => exact fun x hx => hx
  | cons m rest ih => exact fun x hx => ih (step s m) (step_files_sub s m hx)

/-- No dispatcher branch removes an error-stream line. -/
theorem step_errOut_sub (s : DispatchState) (m : FromElm) :
    s.errOut ⊆ (step s m).errOut := by
  cases m with
  | log v => exact fun x hx => hx
  | initialData mf fl => exact fun x hx => hx
  | pageProgress a => exact fun x hx => hx
  | errors d => exact fun x hx => List.mem_append_left _ hx

/-- Error-stream lines persist across the rest of the message stream. -/
theorem foldl_errOut_sub (ms : List FromElm) (s : DispatchState) :
    s.errOut ⊆ (List.foldl step s ms).errOut := by
  induction ms generalizing s with
  | nil => exact fun x hx => hx
  | cons m rest ih => exact fun x hx => ih (step s m) (step_errOut_sub s m hx)

/-- Once the error flag is set, no later message clears it. -/
theorem foldl_foundErrors_mono (ms : List FromElm) (s : DispatchState)
    (h : s.foundErrors = true) :
    (List.foldl step s ms).foundErrors = true := by
  induction ms generalizing s with
  | nil => exact h
  | cons m rest ih =>
      apply ih
      cases m with
      | log v => exact h
      | initialData mf fl => exact h
      | pageProgress a => exact h
      | errors d => rfl

/-- Every `PageProgress` message in a stream leaves both of its page files
among the recorded writes of the final state. -/
theorem pageProgress_writes (ms : List FromElm) (s : DispatchState) (a : PageArg)
    (h : FromElm.pageProgress a ∈ ms) :
    (htmlPath a.route, FileContent.htmlDoc a) ∈ (List.foldl step s ms).files
    ∧ (jsonPath a.route, FileContent.raw (contentJsonString a))
        ∈ (List.foldl step s ms).files := by
  induction ms generalizing s with
  | nil => cases h
  | cons m rest ih =>
      rcases List.mem_cons.mp h with heq | hmem
      · subst heq
        constructor
        · exact foldl_files_sub rest _
            (List.mem_append_right _ (by simp))
        · exact foldl_files_sub rest _
            (List.mem_append_right _ (by simp))
      · exact ih (step s m) hmem

/-! ## Claim C1 — Errors does not halt the dispatcher -/

/-- Claim C1: when an `Errors` message arrives, the dispatcher records the
failure and prints the details to the error stream but does not halt —
every subsequent `PageProgress` message is still handled and both of its
page files are written — and when the channel closes the process exits
with code 1. -/
theorem c1_errors_partial_failure (pre post : List FromElm) (d : JStr) :
    exitCodeAtClose (runAll (pre ++ FromElm.errors d :: post)) = 1
    ∧ d ∈ (runAll (pre ++ FromElm.errors d :: post)).errOut
    ∧ ∀ a : PageArg, FromElm.pageProgress a ∈ post →
        (htmlPath a.route, FileContent.htmlDoc a)
            ∈ (runAll (pre ++ FromElm.errors d :: post)).files
        ∧ (jsonPath a.route, FileContent.raw (contentJsonString a))
            ∈ (runAll (pre ++ FromElm.errors d :: post)).files := by
  have hsplit : runAll (pre ++ FromElm.errors d :: post)
      = List.foldl step (step (List.foldl step initState pre) (.errors d)) post := by
    simp [runAll, List.foldl_append]
  refine ⟨?_, ?_, ?_⟩
  · rw [hsplit]
    unfold exitCodeAtClose
    rw [foldl_foundErrors_mono post _ rfl]
    rfl
  · rw [hsplit]
    exact foldl_errOut_sub post _ (List.mem_append_right _ (by simp))
  · intro a ha
    rw [hsplit]
    exact pageProgress_writes post _ a ha

/-- Witness for `c1_errors_partial_failure`: an `Errors` message followed
by one `PageProgress` message still writes that page's html file, and the
exit code is 1. -/
theorem c1_errors_partial_failure_witness :
    exitCodeAtClose (runAll ([] ++ FromElm.errors "boom".data
        :: [FromElm.pageProgress pageBlog])) = 1
    ∧ (htmlPath pageBlog.route, FileContent.htmlDoc pageBlog)
        ∈ (runAll ([] ++ FromElm.errors "boom".data
            :: [FromElm.pageProgress pageBlog])).files :=
  ⟨(c1_errors_partial_failure [] [FromElm.pageProgress pageBlog] "boom".data).1,
   ((c1_errors_partial_failure [] [FromElm.pageProgress pageBlog] "boom".data).2.2
      pageBlog (List.mem_singleton_self _)).1⟩

/-! ## Claim C10 — the error flag's frame conditions -/

/-- Claim C10: the build-result flag starts as success (`false`), exactly
the `Errors` branch sets it — to failure (`true`), permanently — while the
`Log`, `InitialData` and `PageProgress` branches (including all the file
writes they trigger) leave it unchanged, and no later message ever resets
it before it is read at exit. -/
theorem c10_flag_frame :
    initState.foundErrors = false
    ∧ (∀ (s : DispatchState) (d : JStr), (step s (.errors d)).foundErrors = true)
    ∧ (∀ (s : DispatchState) (v : JStr), (step s (.log v)).foundErrors = s.foundErrors)
    ∧ (∀ (s : DispatchState) (mf : Json) (fl : List (JStr × JStr)),
        (step s (.initialData mf fl)).foundErrors = s.foundErrors)
    ∧ (∀ (s : DispatchState) (a : PageArg),
        (step s (.pageProgress a)).foundErrors = s.foundErrors)
    ∧ (∀ (s : DispatchState) (ms : List FromElm),
        s.foundErrors = true → (List.foldl step s ms).foundErrors = true) :=
  ⟨rfl, fun _ _ => rfl, fun _ _ => rfl, fun _ _ _ => rfl, fun _ _ => rfl,
   fun s ms h => foldl_foundErrors_mono ms s h⟩

/-- Witness for `c10_flag_frame`: after an `Errors` message the flag stays
set across a further `Log` message. -/
theorem c10_flag_frame_witness :
    initState.foundErrors = false
    ∧ (List.foldl step (step initState (.errors "e".data))
        [FromElm.log "x".data]).foundErrors = true :=
  ⟨c10_flag_frame.1,
   c10_flag_frame.2.2.2.2.2 (step initState (.errors "e".data))
     [FromElm.log "x".data] (c10_flag_frame.2.1 initState "e".data)⟩

/-! ## Filesystem lemmas (for claim C9) -/

/-- Extending a path strictly changes it. -/
theorem append_cons_ne (l : List JStr) (x : JStr) (t : List JStr) :
    l ++ x :: t ≠ l := by
  intro h
  have hlen := congrArg List.length h
  rw [List.length_append, List.length_cons] at hlen
  omega

/-- A strictly longer path is never a path-wise ancestor's equal or above:
`dest ++ [n]` does not begin `dest`. -/
theorem not_long_pre (dest : List JStr) (n : JStr) :
    ¬ (dest ++ [n]) <+: dest := by
  intro hp
  obtain ⟨t, ht⟩ := hp
  have hlen := congrArg List.length ht
  rw [List.length_append, List.length_append] at hlen
  simp only [List.length_singleton] at hlen
  omega

/-- Cancelling the shared directory part of two extended paths. -/
theorem append_cons_inj {dest : List JStr} {n m : JStr} {t q : List JStr}
    (h : dest ++ n :: t = dest ++ m :: q) : n = m ∧ t = q := by
  have h2 := List.append_cancel_left h
  exact ⟨(List.cons.inj h2).1, (List.cons.inj h2).2⟩

/-- Looking up an unlisted name in a directory listing finds nothing. -/
theorem lookupChild_not_found (cs : EntryList) (n : JStr) (q : List JStr)
    (h : hasName cs n = false) : lookupChild cs n q = none := by
  match cs with
  | .nil => rfl
  | .cons m e rest =>
      simp only [hasName, Bool.or_eq_false_iff] at h
      simp only [lookupChild]
      rw [if_neg ?hne]
      case hne =>
        intro he
        subst he
        simp at h
      exact lookupChild_not_found rest n q h.2

mutual
/-- Specification of `copyDirHelp`: copying a well-formed source entry to a
destination path whose parent is an existing directory and at or below
which nothing exists succeeds, changes nothing outside the destination
subtree, and reproduces the source exactly under the destination. -/
theorem copyHelp_spec (e : Entry) (dest : List JStr) (fs : FS)
    (hwf : wfEntry e = true) (hne : dest ≠ [])
    (hpar : fs dest.dropLast = some .dirNode)
    (habs : ∀ q, dest <+: q → fs q = none) :
    ∃ fs', copyDirHelp e dest fs = some fs'
      ∧ (∀ q, ¬ dest <+: q → fs' q = fs q)
      ∧ (∀ q, fs' (dest ++ q) = lookupTree e q) := by
  match e with
  | .file c =>
      have hdnone : fs dest = none := habs dest ⟨[], by simp⟩
      have heq : copyFileTo fs dest c = some (fs.update dest (.fileNode c)) := by
        unfold copyFileTo
        rw [hpar, hdnone]
      refine ⟨fs.update dest (.fileNode c), ?_, ?_, ?_⟩
      · simp only [copyDirHelp]
        exact heq
      · intro q hq
        have hqne : q ≠ dest := fun he => hq (he ▸ ⟨[], by simp⟩)
        simp [FS.update, hqne]
      · intro q
        match q with
        | [] => simp [FS.update, lookupTree]
        | x :: t =>
            have hne2 := append_cons_ne dest x t
            have hnone := habs (dest ++ x :: t) ⟨x :: t, rfl⟩
            simp [FS.update, hne2, hnone, lookupTree]
  | .dir cs =>
      have hwf' : wfList cs = true := by simpa [wfEntry] using hwf
      have hdnone : fs dest = none := habs dest ⟨[], by simp⟩
      have hmk : mkdirAt fs dest = some (fs.update dest .dirNode) := by
        unfold mkdirAt
        rw [hdnone, if_neg hne, hpar]
      obtain ⟨fs2, heq2, hframe2, hcontent2⟩ :=
        copyChildren_spec cs dest (fs.update dest .dirNode) hwf'
          (by simp [FS.update])
          (by
            intro n q hn
            have hne2 := append_cons_ne dest n q
            simp only [FS.update, if_neg hne2]
            exact habs _ ⟨n :: q, rfl⟩)
      refine ⟨fs2, ?_, ?_, ?_⟩
      · simp only [copyDirHelp]
        rw [hmk]
        exact heq2
      · intro q hq
        rw [hframe2 q (fun n q' hn he => hq (he ▸ ⟨n :: q', rfl⟩))]
        have hqne : q ≠ dest := fun he => hq (he ▸ ⟨[], by simp⟩)
        simp [FS.update, hqne]
      · intro q
        match q with
        | [] =>
            rw [List.append_nil]
            rw [hframe2 dest (fun n q' hn he => append_cons_ne dest n q' he.symm)]
            simp [FS.update, lookupTree]
        | m :: t =>
            by_cases hm : hasName cs m = true
            · rw [hcontent2 m t hm]
              simp only [lookupTree]
            · have hbm : hasName cs m = false := by simpa using hm
              have hd : ∀ n q', hasName cs n = true → dest ++ m :: t ≠ dest ++ n :: q' := by
                intro n q' hn he
                obtain ⟨hnm, -⟩ := append_cons_inj he
                rw [← hnm] at hn
                simp [hbm] at hn
              rw [hframe2 _ hd]
              have hne2 := append_cons_ne dest m t
              simp only [FS.update, if_neg hne2]
              rw [habs _ ⟨m :: t, rfl⟩]
              simp only [lookupTree]
              exact (lookupChild_not_found cs m t hbm).symm

/-- Specification of the per-child copy loop: with a well-formed listing,
an existing destination directory, and nothing existing under any listed
name, the loop succeeds, changes nothing outside the listed names'
subtrees, and places each listed child's subtree exactly. -/
theorem copyChildren_spec (cs : EntryList) (dest : List JStr) (fs : FS)
    (hwf : wfList cs = true)
    (hdir : fs dest = some .dirNode)
    (habs : ∀ n q, hasName cs n = true → fs (dest ++ n :: q) = none) :
    ∃ fs', copyChildren cs dest fs = some fs'
      ∧ (∀ q, (∀ n q', hasName cs n = true → q ≠ dest ++ n :: q') → fs' q = fs q)
      ∧ (∀ n q, hasName cs n = true → fs' (dest ++ n :: q) = lookupChild cs n q) := by
  match cs with
  | .nil =>
      refine ⟨fs, rfl, fun q _ => rfl, fun n q hn => ?_⟩
      simp [hasName] at hn
  | .cons n e rest =>
      simp only [wfList, Bool.and_eq_true, Bool.not_eq_true'] at hwf
      obtain ⟨⟨hwfe, hwfr⟩, hdup⟩ := hwf
      obtain ⟨fs1, heq1, hframe1, hcontent1⟩ :=
        copyHelp_spec e (dest ++ [n]) fs hwfe (by simp)
          (by rw [List.dropLast_concat]; exact hdir)
          (by
            intro q hq
            obtain ⟨t, ht⟩ := hq
            have hqd : q = dest ++ n :: t := by rw [← ht]; simp
            rw [hqd]
            exact habs n t (by simp [hasName]))
      obtain ⟨fs2, heq2, hframe2, hcontent2⟩ :=
        copyChildren_spec rest dest fs1 hwfr
          (by
            rw [hframe1 dest (not_long_pre dest n)]
            exact hdir)
          (by
            intro m q hm
            have hne2 : ¬ (dest ++ [n]) <+: (dest ++ m :: q) := by
              intro hp
              obtain ⟨t, ht⟩ := hp
              have ht' : dest ++ n :: t = dest ++ m :: q := by rw [← ht]; simp
              obtain ⟨hnm, -⟩ := append_cons_inj ht'
              rw [← hnm] at hm
              simp [hdup] at hm
            rw [hframe1 _ hne2]
            exact habs m q (by simp [hasName, hm]))
      refine ⟨fs2, ?_, ?_, ?_⟩
      · simp only [copyChildren]
        rw [heq1]
        exact heq2
      · intro q hq
        rw [hframe2 q (fun m q' hm2 => hq m q' (by simp [hasName, hm2]))]
        apply hframe1
        intro hp
        obtain ⟨t, ht⟩ := hp
        have hqd : q = dest ++ n :: t := by rw [← ht]; simp
        exact hq n t (by simp [hasName]) hqd
      · intro m q hm
        simp only [lookupChild]
        by_cases hnm : n = m
        · subst hnm
          rw [if_pos rfl]
          have hd2 : ∀ m' q', hasName rest m' = true
              → dest ++ n :: q ≠ dest ++ m' :: q' := by
            intro m' q' hm' he
            obtain ⟨hn', -⟩ := append_cons_inj he
            rw [← hn'] at hm'
            simp [hdup] at hm'
          rw [hframe2 _ hd2]
          have hsplit : dest ++ n :: q = (dest ++ [n]) ++ q := by simp
          rw [hsplit]
          exact hcontent1 q
        · rw [if_neg hnm]
          have hm' : hasName rest m = true := by
            simp only [hasName, Bool.or_eq_true] at hm
            rcases hm with hb | hb
            · exact absurd (by simpa using hb) hnm
            · exact hb
          exact hcontent2 m q hm'
end

/-! ## Claim C9 — nested directory copy -/

/-- Claim C9 is false as stated: when the destination path itself is fully
absent (here `d`, over a filesystem holding only the root), the
non-recursive `mkdir`/`copyFile` calls fail with no existing parent
directory, so the copy errors out instead of reproducing the source
subtree. -/
theorem c9_copy_counterexample :
    copyDir srcOneFile ["d".data] fsRootOnly = none := rfl

/-- Claim C9, amended: for every well-formed source tree and every
destination that exists as an empty directory before the call, running the
nested-mode copy succeeds, changes nothing outside the destination
subtree, and reproduces under the destination the exact subtree structure
and file contents of the source. -/
theorem c9_copy_amended (cs : EntryList) (dest : List JStr) (fs : FS)
    (hwf : wfList cs = true)
    (hdir : fs dest = some .dirNode)
    (hempty : ∀ q, dest <+: q → q ≠ dest → fs q = none) :
    ∃ fs', copyDir cs dest fs = some fs'
      ∧ (∀ q, ¬ dest <+: q → fs' q = fs q)
      ∧ (∀ q, fs' (dest ++ q) = lookupTree (.dir cs) q) := by
  obtain ⟨fs', heq, hframe, hcontent⟩ :=
    copyChildren_spec cs dest fs hwf hdir
      (fun n q hn =>
        hempty (dest ++ n :: q) ⟨n :: q, rfl⟩ (append_cons_ne dest n q))
  refine ⟨fs', heq, ?_, ?_⟩
  · intro q hq
    exact hframe q (fun n q' hn he => hq (he ▸ ⟨n :: q', rfl⟩))
  · intro q
    match q with
    | [] =>
        rw [List.append_nil]
        rw [hframe dest (fun n q' hn he => append_cons_ne dest n q' he.symm)]
        rw [hdir]
        simp only [lookupTree]
    | m :: t =>
        by_cases hm : hasName cs m = true
        · rw [hcontent m t hm]
          simp only [lookupTree]
        · have hbm : hasName cs m = false := by simpa using hm
          have hd : ∀ n q', hasName cs n = true
              → dest ++ m :: t ≠ dest ++ n :: q' := by
            intro n q' hn he
            obtain ⟨hnm, -⟩ := append_cons_inj he
            rw [← hnm] at hn
            simp [hbm] at hn
          rw [hframe _ hd]
          rw [hempty _ ⟨m :: t, rfl⟩ (append_cons_ne dest m t)]
          simp only [lookupTree]
          exact (lookupChild_not_found cs m t hbm).symm

/-- Witness for `c9_copy_amended`: copying the one-file source into the
empty existing directory `d` succeeds and mirrors the source there. -/
theorem c9_copy_amended_witness :
    ∃ fs', copyDir srcOneFile ["d".data] fsEmptyDirD = some fs'
      ∧ (∀ q, ¬ ["d".data] <+: q → fs' q = fsEmptyDirD q)
      ∧ (∀ q, fs' (["d".data] ++ q) = lookupTree (.dir srcOneFile) q) :=
  c9_copy_amended srcOneFile ["d".data] fsEmptyDirD (by decide) rfl
    (by
      intro q hq hne
      obtain ⟨t, ht⟩ := hq
      have ht2 : t ≠ [] := by
        intro h0
        rw [h0] at ht
        simp at ht
        exact hne ht.symm
      rw [← ht]
      unfold fsEmptyDirD
      rw [if_neg (by simp), if_neg (by simp [ht2])])

end ElmPages
